import Mathlib

/-!
Verification of the command layer of the `curious` library
(`curious/commands/{utils,manager,decorators}.py`) via a shallow embedding.
Strings are modelled as `List Char`; Python dicts as insertion-ordered
association lists; exceptions as `Except` values.
-/

/-- Strings of the embedded program, as lists of characters. -/
abbrev Str := List Char

/-- Python exceptions that the embedded code can raise. -/
inductive PyErr where
  | keyError
  | indexError
  | attributeError
  | typeError
  | missingArg (name : Str)
  | convFail (tag : Str)
  deriving DecidableEq, Repr

/-! ## Argument converter (`curious/commands/utils.py`, `_convert`) -/

/-- A Python runtime value as far as the converter cares: a string, or some
non-string object carrying only its type name. -/
inductive PyVal where
  | str (s : Str)
  | nonStr (tyName : Str)
  deriving DecidableEq, Repr

/-- The kinds of `inspect.Parameter` that `_convert` dispatches on. -/
inductive ParamKind where
  | positionalOrKeyword
  | positionalOnly
  | keywordOnly
  | varPositional
  | varKeyword
  deriving DecidableEq, Repr

/-- One entry of `inspect.Signature.parameters`: name, kind, declared default
(`none` models `inspect.Parameter.empty`), and the annotation, modelled as a
numeric type key fed to the converter lookup. -/
structure Param where
  name : Str
  kind : ParamKind
  default : Option PyVal
  annot : Nat
  deriving DecidableEq, Repr

/-- The slice of the commands context that `_convert` uses:
`ctx._lookup_converter(annotation)` followed by `converter(ctx, arg)`, fused
into one fallible call keyed by the annotation. The converter registry lives
outside the embedded sources (`curious/commands/context.py`). -/
structure Ctx where
  lookup_converter : Nat → PyVal → Except PyErr PyVal

/-- Strip one matching pair of surrounding double quotes, if present. -/
def strip_pair (s : Str) : Str :=
  match s with
  | '"' :: (c :: rest) =>
      if (c :: rest).getLast? = some '"' then (c :: rest).dropLast else s
  | _ => s

/-- Modelled from the spec: `replace_quotes` (defined in `curious/util.py`,
which is not among the provided sources) per §4.5: "strip one matching pair of
surrounding double quotes if present". Applied to a non-string value (possible
when a parameter's declared default is substituted), the string operations it
performs fail, modelled as an `AttributeError`. -/
def replace_quotes : PyVal → Except PyErr Str
  | .str s => .ok (strip_pair s)
  | .nonStr _ => .error .attributeError

/-- Python's `" ".join(f)` over runtime values: succeeds only when every
element is a string, raising `TypeError` otherwise. -/
def pyJoin : List PyVal → Except PyErr Str
  | [] => .ok []
  | [PyVal.str s] => .ok s
  | PyVal.str s :: v :: rest =>
      match pyJoin (v :: rest) with
      | .error e => .error e
      | .ok r => .ok (s ++ ' ' :: r)
  | PyVal.nonStr _ :: _ => .error .typeError

/-- One iteration body of the `_convert` loop once an argument value `arg` has
been obtained for parameter `p` (either the next token, or the declared
default): dispatch on the parameter kind, mirroring the
`if param.kind in [...]` chain. Returns the updated positional results,
keyword results, and the tokens left for later parameters.

For a `KEYWORD_ONLY` or `VAR_POSITIONAL` parameter the code drains the token
iterator into `f = [arg, ...remaining]`; the source's `len(f) == 1` test is
rendered as a match on the remaining tokens, which are empty exactly when
`len(f) == 1`. A `VAR_KEYWORD` parameter discards the token consumed for it
and contributes nothing. -/
def convert_one (ctx : Ctx) (p : Param) (arg : PyVal) (ts : List Str)
    (acc_args : List PyVal) (acc_kwargs : List (Str × PyVal)) :
    Except PyErr (List PyVal × List (Str × PyVal) × List Str) :=
  match p.kind with
  | .positionalOrKeyword | .positionalOnly =>
      match replace_quotes arg with
      | .error e => .error e
      | .ok s =>
          match Ctx.lookup_converter ctx p.annot (PyVal.str s) with
          | .error e => .error e
          | .ok v => .ok (acc_args ++ [v], acc_kwargs, ts)
  | .keywordOnly =>
      match ts with
      | [] =>
          match Ctx.lookup_converter ctx p.annot arg with
          | .error e => .error e
          | .ok v => .ok (acc_args, acc_kwargs ++ [(p.name, v)], [])
      | _ :: _ =>
          match pyJoin (arg :: ts.map PyVal.str) with
          | .error e => .error e
          | .ok s =>
              match Ctx.lookup_converter ctx p.annot (PyVal.str s) with
              | .error e => .error e
              | .ok v => .ok (acc_args, acc_kwargs ++ [(p.name, v)], [])
  | .varPositional =>
      match pyJoin (arg :: ts.map PyVal.str) with
      | .error e => .error e
      | .ok s =>
          match Ctx.lookup_converter ctx p.annot (PyVal.str s) with
          | .error e => .error e
          | .ok v => .ok (acc_args ++ [v], acc_kwargs, [])
  | .varKeyword => .ok (acc_args, acc_kwargs, ts)

/-- The parameter loop of `_convert`: for each declared parameter pull the next
token; on exhaustion a `VAR_POSITIONAL` parameter breaks out of the loop, a
declared default is substituted, and otherwise `MissingArgumentError` is
raised naming the parameter. -/
def convert_loop (ctx : Ctx) :
    List Param → List Str → List PyVal → List (Str × PyVal) →
    Except PyErr (List PyVal × List (Str × PyVal))
  | [], _, acc_args, acc_kwargs => .ok (acc_args, acc_kwargs)
  | p :: rest, toks, acc_args, acc_kwargs =>
      match toks with
      | [] =>
          if p.kind = ParamKind.varPositional then .ok (acc_args, acc_kwargs)
          else
            match p.default with
            | none => .error (PyErr.missingArg p.name)
            | some d =>
                match convert_one ctx p d [] acc_args acc_kwargs with
                | .error e => .error e
                | .ok (a, k, ts) => convert_loop ctx rest ts a k
      | tk :: ts =>
          match convert_one ctx p (PyVal.str tk) ts acc_args acc_kwargs with
          | .error e => .error e
          | .ok (a, k, ts2) => convert_loop ctx rest ts2 a k

/-- `_convert(ctx, tokens, signature)`: the first declared parameter is the
context parameter and is skipped (`if n == 0: continue`); the rest are
processed by the loop with empty accumulators. -/
def _convert (ctx : Ctx) (tokens : List Str) (signature : List Param) :
    Except PyErr (List PyVal × List (Str × PyVal)) :=
  convert_loop ctx (signature.drop 1) tokens [] []

/-- The leading context parameter of a signature (never converted). -/
def ctxParam : Param := ⟨"ctx".toList, ParamKind.positionalOrKeyword, none, 0⟩

/-! ## Command descriptors and the manager (`curious/commands/manager.py`) -/

/-- A command descriptor as the manager sees it: primary name, alias list, and
subcommand list (the attributes set by the `command` decorator that
`lookup_command` and `get_command` read). -/
inductive Cmd where
  | mk (cmd_name : Str) (cmd_aliases : List Str) (cmd_subcommands : List Cmd)

/-- Primary name of a command descriptor. -/
def Cmd.cmd_name : Cmd → Str
  | .mk n _ _ => n

/-- Alias list of a command descriptor. -/
def Cmd.cmd_aliases : Cmd → List Str
  | .mk _ a _ => a

/-- Subcommand list of a command descriptor. -/
def Cmd.cmd_subcommands : Cmd → List Cmd
  | .mk _ _ s => s

/-- Python-dict lookup on an insertion-ordered association list. -/
def dget {K V : Type} [BEq K] (d : List (K × V)) (k : K) : Option V :=
  (d.find? (fun kv => kv.1 == k)).map (fun kv => kv.2)

/-- Python-dict assignment `d[k] = v`: update in place if the key exists,
append otherwise (Python 3.7 dicts preserve insertion order). -/
def dinsert {K V : Type} [BEq K] (d : List (K × V)) (k : K) (v : V) :
    List (K × V) :=
  if (d.find? (fun kv => kv.1 == k)).isSome then
    d.map (fun kv => if kv.1 == k then (k, v) else kv)
  else d ++ [(k, v)]

/-- Python-dict `d.pop(k)` with no default: the value and the remaining dict,
or `none` (a `KeyError` at the call site) when the key is missing. -/
def dpop {K V : Type} [BEq K] (d : List (K × V)) (k : K) :
    Option (V × List (K × V)) :=
  (d.find? (fun kv => kv.1 == k)).map
    (fun kv => (kv.2, d.eraseP (fun kv2 => kv2.1 == k)))

/-- A plugin class: an identity, its `__name__`, and an optional `plugin_name`
class attribute. -/
structure PluginClass where
  cid : Nat
  clsName : Str
  plugin_name : Option Str

/-- A plugin instance: an object identity, its class, and the command
descriptors its `_get_commands()` reports. -/
structure PluginInst where
  iid : Nat
  cls : PluginClass
  cmds : List Cmd

/-- `getattr(x, "plugin_name", type(x).__name__)` for a plugin instance or
class (instances inherit the class attribute). -/
def resolvedName (c : PluginClass) : Str :=
  c.plugin_name.getD c.clsName

/-- Keys of `_plugin_command_cache`: the dict is populated with plugin
*instances* as keys, but `unload_plugin` pops it with a *string*; a Python
dict accepts both, so the key type is their disjoint union. -/
inductive CacheKey where
  | inst (iid : Nat)
  | sname (s : Str)
  deriving DecidableEq, Repr

instance : BEq CacheKey := ⟨fun a b => decide (a = b)⟩

/-- Runtime types as compared by `type(p) == klass` in `unload_plugin`. -/
inductive PyType where
  | plugin (cid : Nat)
  | cancelScope
  deriving DecidableEq, Repr

instance : BEq PyType := ⟨fun a b => decide (a = b)⟩

/-- The runtime type of a stored cancel-scope handle. -/
def scopeType (_ : Nat) : PyType := PyType.cancelScope

/-- The mutable state of a `CommandsManager` that the claims concern:
`plugins` (name → (instance, cancel scope)), `_plugin_command_cache`, and the
standalone `commands` table. The `_module_plugins` map and the event wiring
are untouched by the claims and omitted. -/
structure ManagerState where
  plugins : List (Str × (PluginInst × Nat))
  cache : List (CacheKey × List (Str × Cmd))
  commands : List (Str × Cmd)

/-- The per-plugin command table built by `load_plugin`: every command under
its primary name, then under each alias. -/
def buildTable (cmds : List Cmd) : List (Str × Cmd) :=
  cmds.foldl
    (fun table c =>
      (Cmd.cmd_aliases c).foldl
        (fun t al => dinsert t al c)
        (dinsert table (Cmd.cmd_name c) c))
    []

/-- `load_plugin`'s effect on the manager tables (instantiation, the load
hook, and the background-task spawn are external effects): register the
instance and its fresh scope under the resolved plugin name, and cache its
command table keyed by the *instance*. -/
def load_plugin (st : ManagerState) (inst : PluginInst) (scope : Nat) :
    ManagerState :=
  let plugin_name := resolvedName inst.cls
  { st with
    plugins := dinsert st.plugins plugin_name (inst, scope)
    cache := dinsert st.cache (CacheKey.inst inst.iid) (buildTable inst.cmds) }

/-- The argument of `unload_plugin`: a plugin name or a plugin class. -/
inductive UnloadArg where
  | byName (s : Str)
  | byClass (k : PluginClass)

/-- External effects `unload_plugin` performs, in order. -/
inductive Effect where
  | cancelScope (scope : Nat)
  | unloadHook (iid : Nat)
  deriving DecidableEq, Repr

/-- Outcome of `unload_plugin`: the manager state when the call ends (normally
or by an uncaught exception), the returned value or the exception, and the
effects performed before the call ended. -/
structure UnloadResult where
  state : ManagerState
  ret : Except PyErr (Option PluginInst)
  effects : List Effect

/-- Tail of `unload_plugin` once a `(plugin, scope)` registration has been
popped from `plugins`: cancel the scope, run the unload hook, then
`self._plugin_command_cache.pop(getattr(plugin, "plugin_name", ...))` — a pop
by *string* key on a cache keyed by *instances*, raising `KeyError` when no
such string key exists. -/
def unload_tail (st1 : ManagerState) (inst : PluginInst) (scope : Nat) :
    UnloadResult :=
  let effects := [Effect.cancelScope scope, Effect.unloadHook inst.iid]
  match dpop st1.cache (CacheKey.sname (resolvedName inst.cls)) with
  | none => ⟨st1, .error .keyError, effects⟩
  | some (_, cache2) =>
      ⟨{ st1 with cache := cache2 }, .ok (some inst), effects⟩

/-- `unload_plugin`. By name: `self.plugins.pop(klass)`, which raises
`KeyError` when the name is not registered. By class: iterate
`for k, (s, p) in self.plugins.copy().items()` — the stored pairs are
`(instance, scope)`, so `s` binds the instance and `p` binds the cancel
scope — and test `type(p) == klass`, i.e. the type of the *scope* against the
plugin class; on no match, `plugin` stays `None` and the call returns it. -/
def unload_plugin (st : ManagerState) (arg : UnloadArg) : UnloadResult :=
  match arg with
  | .byName s =>
      match dpop st.plugins s with
      | none => ⟨st, .error .keyError, []⟩
      | some ((inst, scope), plugins2) =>
          unload_tail { st with plugins := plugins2 } inst scope
  | .byClass k =>
      match st.plugins.find?
          (fun kv => scopeType kv.2.2 == PyType.plugin k.cid) with
      | none => ⟨st, .ok none, []⟩
      | some kv =>
          match dpop st.plugins kv.1 with
          | none => ⟨st, .ok none, []⟩
          | some ((inst, scope), plugins2) =>
              unload_tail { st with plugins := plugins2 } inst scope

/-- `lookup_command`: the standalone table first, then each per-plugin cached
table in insertion order. -/
def lookup_command (st : ManagerState) (name : Str) : Option Cmd :=
  match dget st.commands name with
  | some c => some c
  | none => st.cache.findSome? (fun kv => dget kv.2 name)

/-- Python `str.split(" ")` on a single-space separator: split at every
occurrence, keeping empty parts; the empty string yields `[""]`. -/
def splitOnSpace : Str → List Str
  | [] => [[]]
  | c :: rest =>
      if c = ' ' then [] :: splitOnSpace rest
      else
        match splitOnSpace rest with
        | [] => [[c]]
        | w :: ws => (c :: w) :: ws

/-- The subcommand walk of `get_command`: for each further token take the
first subcommand whose primary name equals the token or whose aliases contain
it (`next(filter(...))`), failing with `None` on `StopIteration`. -/
def walkSubcommands : Cmd → List Str → Option Cmd
  | c, [] => some c
  | c, t :: ts =>
      match (Cmd.cmd_subcommands c).find?
          (fun s => Cmd.cmd_name s == t || (Cmd.cmd_aliases s).contains t) with
      | none => none
      | some nxt => walkSubcommands nxt ts

/-- `get_command`: split the dotted name on spaces, resolve the first token
via `lookup_command`, then walk the subcommand lists. -/
def get_command (st : ManagerState) (command_name : Str) : Option Cmd :=
  match splitOnSpace command_name with
  | [] => none
  | first :: rest =>
      match lookup_command st first with
      | none => none
      | some c => walkSubcommands c rest

/-! ## Tokenizer and prefix matcher (`curious/commands/utils.py`) -/

/-- The characters Python's no-argument `str.split()` splits on. -/
def isWhite (c : Char) : Bool :=
  c = ' ' || c = '\t' || c = '\n' || c = '\r' || c = '\x0b' || c = '\x0c'

/-- Scan for the closing double quote of a regex match `".+?"`: the characters
before it stand for `.` repetitions, so none may be a newline. Returns the
skipped characters and the remainder after the quote. -/
def scanClose : List Char → Option (List Char × List Char)
  | [] => none
  | c :: rest =>
      if c = '"' then some ([], rest)
      else if c = '\n' then none
      else
        match scanClose rest with
        | none => none
        | some (pre, post) => some (c :: pre, post)

theorem scanClose_length {l pre post : List Char}
    (h : scanClose l = some (pre, post)) :
    pre.length + post.length + 1 = l.length := by
  induction l generalizing pre post with
  | nil => simp [scanClose] at h
  | cons c rest ih =>
      by_cases hq : c = '"'
      · simp [scanClose, hq] at h
        simp [← h.1, ← h.2]
      · by_cases hn : c = '\n'
        · simp [scanClose, hq, hn] at h
        · simp [scanClose, hq, hn] at h
          match hrec : scanClose rest with
          | none => rw [hrec] at h; simp at h
          | some (pre2, post2) =>
              rw [hrec] at h
              simp at h
              have := ih hrec
              rw [h.2] at this
              rw [← h.1]
              simp
              omega

/-- The shortest (non-greedy) match of `.+?"` at the current position: at
least one non-newline character, then the scan for the closing quote. -/
def matchAt : List Char → Option (List Char × List Char)
  | [] => none
  | c :: rest =>
      if c = '\n' then none
      else
        match scanClose rest with
        | none => none
        | some (pre, post) => some (c :: pre, post)

theorem matchAt_length {l content post : List Char}
    (h : matchAt l = some (content, post)) :
    content.length + post.length + 1 = l.length := by
  match l with
  | [] => simp [matchAt] at h
  | c :: rest =>
      by_cases hn : c = '\n'
      · simp [matchAt, hn] at h
      · simp [matchAt, hn] at h
        match hrec : scanClose rest with
        | none => rw [hrec] at h; simp at h
        | some (pre, post2) =>
            rw [hrec] at h
            simp at h
            obtain ⟨h1, h2⟩ := h
            have h3 := scanClose_length hrec
            rw [← h1]
            subst h2
            simp only [List.length_cons]
            omega

/-- The substitution pass `re.sub(r'".+?"', replacer, content)` with the
default delimiter `" "`: inside each non-greedy quoted match, every delimiter
character is replaced by the sentinel `'\x00'`; the quotes and everything
outside matches pass through. -/
def subQuoted : List Char → List Char
  | [] => []
  | c :: rest =>
      if c = '"' then
        match hm : matchAt rest with
        | some (content, rest2) =>
            '"' :: (content.map fun d => if d = ' ' then '\x00' else d) ++
              '"' :: subQuoted rest2
        | none => c :: subQuoted rest
      else c :: subQuoted rest
termination_by l => l.length
decreasing_by
  · have := matchAt_length hm
    simp
    omega
  · simp
  · simp

/-- Python's `str.split()` word scan: take characters up to the next
whitespace character. -/
def takeWord : List Char → List Char × List Char
  | [] => ([], [])
  | c :: rest =>
      if isWhite c then ([], c :: rest)
      else
        let p := takeWord rest
        (c :: p.1, p.2)

theorem takeWord_length (l : List Char) :
    (takeWord l).1.length + (takeWord l).2.length = l.length := by
  induction l with
  | nil => simp [takeWord]
  | cons c rest ih =>
      by_cases hw : isWhite c
      · simp [takeWord, hw]
      · simp [takeWord, hw]
        omega

/-- Python's no-argument `str.split()`: split on runs of whitespace, dropping
empty parts. -/
def wsplit : List Char → List (List Char)
  | [] => []
  | c :: rest =>
      if isWhite c then wsplit rest
      else (c :: (takeWord rest).1) :: wsplit (takeWord rest).2
termination_by l => l.length
decreasing_by
  · simp
  · have := takeWord_length rest
    simp
    omega

/-- The restoration pass `p.replace("\x00", " ")` applied to one token. -/
def restoreTok (t : List Char) : List Char :=
  t.map fun c => if c = '\x00' then ' ' else c

/-- `split_message_content(content, delim=" ")` at its default delimiter (the
only value the repository and the claims use): protect quoted spans, split on
whitespace, then restore the sentinels to spaces. -/
def split_message_content (content : Str) : List Str :=
  (wsplit (subQuoted content)).map restoreTok

/-- The message-check closure produced by `prefix_check_factory` for a
single-string prefix configuration, applied to a message content. `matched`
stays `None` unless the content starts with the prefix; `if not matched` also
rejects an empty matched prefix (falsy string). On a match, the prefix is
sliced off, the remainder tokenized, and `tokens[0]` raises `IndexError`
when the token list is empty. -/
def prefix_check (pfx : Str) (content : Str) :
    Except PyErr (Option (Str × List Str)) :=
  let matched : Option Str :=
    if List.isPrefixOf pfx content then some pfx else none
  match matched with
  | none => .ok none
  | some m =>
      if m = [] then .ok none
      else
        match split_message_content (content.drop m.length) with
        | [] => .error .indexError
        | t :: ts => .ok (some (t, ts))

/-! ## Decorators (`curious/commands/decorators.py`), with an explicit heap:
function objects are identified by numeric ids and their attributes live in a
store, so that Python's in-place attribute mutation and object sharing are
observable. -/

/-- The attributes of a Python function object that the decorators read and
write. `cmd_subcommands` holds references (ids) to function objects, exactly
as the Python list holds object references. -/
structure FuncObj where
  func_name : Str
  doc : Option Str
  is_cmd : Bool
  cmd_name : Str
  cmd_description : Option Str
  cmd_aliases : List Str
  cmd_subcommand : Bool
  cmd_subcommands : List Nat

/-- The heap of function objects. -/
def Store := Nat → FuncObj

/-- `get_description(func)`: `None` for a missing (or empty, hence falsy)
docstring, otherwise the first line. (`inspect.cleandoc` whitespace
normalisation is irrelevant to the claims and omitted.) -/
def get_description (doc : Option Str) : Option Str :=
  match doc with
  | none => none
  | some d => if d = [] then none else some (d.takeWhile (fun c => c ≠ '\n'))

/-- The `command(name=..., description=..., aliases=...)` decorator applied to
the function object `fid`: it mutates that same object in place, setting the
descriptor attributes, and returns it (the decorator's result IS `fid`). -/
def command_dec (name : Option Str) (description : Option Str)
    (aliases : Option (List Str)) (fid : Nat) (st : Store) : Store :=
  fun i =>
    if i = fid then
      let f := st fid
      { f with
        is_cmd := true
        cmd_name := name.getD f.func_name
        cmd_description := description.orElse (fun _ => get_description f.doc)
        cmd_aliases := aliases.getD []
        cmd_subcommand := false
        cmd_subcommands := [] }
    else st i

/-- `parent.subcommand(**kwargs)` applied to the function object `fid`
(`_subcommand`'s `inner_2`): run the `command` decorator on `fid` (mutating
`fid` itself), set `cmd_subcommand = True` on it, and append the returned
object — `fid` — to the parent's `cmd_subcommands`. -/
def subcommand_apply (parent : Nat) (name : Option Str)
    (description : Option Str) (aliases : Option (List Str)) (fid : Nat)
    (st : Store) : Store :=
  let st1 := command_dec name description aliases fid st
  let st2 := fun i =>
    if i = fid then { st1 fid with cmd_subcommand := true } else st1 i
  fun i =>
    if i = parent then
      { st2 parent with
        cmd_subcommands := (st2 parent).cmd_subcommands ++ [fid] }
    else st2 i

/-- Mutate one attribute (`obj.cmd_name = nm`) of the object `i` in a store. -/
def setName (st : Store) (i : Nat) (nm : Str) : Store :=
  fun j => if j = i then { st i with cmd_name := nm } else st j

/-! ## Claim theorems -/

/-- C6: converting `["5", "rest", "of", "line"]` against a signature
`(ctx, a, *, b)` — one ordinary positional parameter and one keyword-only
parameter — yields exactly the positional arguments `[convert_a("5")]` and the
keyword arguments `{b: convert_b("rest of line")}`: the keyword-only parameter
greedily absorbs every remaining token, rejoined with single spaces before
conversion. -/
theorem c6_keyword_only_greedy (ctx : Ctx) (na nb : Str) (ta tb : Nat)
    (va vb : PyVal)
    (ha : Ctx.lookup_converter ctx ta (PyVal.str ("5".toList)) = .ok va)
    (hb : Ctx.lookup_converter ctx tb (PyVal.str ("rest of line".toList))
      = .ok vb) :
    _convert ctx ["5".toList, "rest".toList, "of".toList, "line".toList]
      [ctxParam, ⟨na, ParamKind.positionalOrKeyword, none, ta⟩,
        ⟨nb, ParamKind.keywordOnly, none, tb⟩]
      = .ok ([va], [(nb, vb)]) := by
  have e5 : replace_quotes (PyVal.str ("5".toList)) = .ok ("5".toList) := rfl
  have ej : pyJoin (PyVal.str ("rest".toList) ::
      List.map PyVal.str ["of".toList, "line".toList])
      = .ok ("rest of line".toList) := rfl
  simp only [_convert, List.drop, convert_loop, convert_one, e5, ej, ha, hb,
    List.nil_append]

/-- C6 witness: a concrete context whose converters echo their input. -/
theorem c6_keyword_only_greedy_witness :
    _convert ⟨fun _ v => .ok v⟩
      ["5".toList, "rest".toList, "of".toList, "line".toList]
      [ctxParam, ⟨"a".toList, ParamKind.positionalOrKeyword, none, 1⟩,
        ⟨"b".toList, ParamKind.keywordOnly, none, 2⟩]
      = .ok ([PyVal.str ("5".toList)],
          [("b".toList, PyVal.str ("rest of line".toList))]) :=
  c6_keyword_only_greedy ⟨fun _ v => .ok v⟩ ("a".toList) ("b".toList) 1 2
    (PyVal.str ("5".toList)) (PyVal.str ("rest of line".toList)) rfl rfl

/-- C7: converting an empty token list against a signature whose single
parameter after the context parameter is an ordinary positional parameter
raises `MissingArgumentError` naming that parameter when it has no declared
default, and completes without error when it has one, substituting the
default for the missing token (the converter then runs on the quote-stripped
default). -/
theorem c7_missing_argument_vs_default (ctx : Ctx) (nm : Str) (t : Nat) :
    _convert ctx [] [ctxParam, ⟨nm, ParamKind.positionalOrKeyword, none, t⟩]
      = .error (PyErr.missingArg nm)
    ∧ ∀ d v,
        Ctx.lookup_converter ctx t (PyVal.str (strip_pair d)) = .ok v →
        _convert ctx []
          [ctxParam, ⟨nm, ParamKind.positionalOrKeyword,
            some (PyVal.str d), t⟩]
          = .ok ([v], []) := by
  constructor
  · rfl
  · intro d v h
    simp only [_convert, List.drop, convert_loop, convert_one, replace_quotes,
      h, List.nil_append]
    rfl

/-- C7 witness: the missing-argument error and the default substitution at a
concrete signature and context. -/
theorem c7_missing_argument_vs_default_witness :
    _convert ⟨fun _ v => .ok v⟩ []
      [ctxParam, ⟨"a".toList, ParamKind.positionalOrKeyword, none, 1⟩]
      = .error (PyErr.missingArg ("a".toList))
    ∧ _convert ⟨fun _ v => .ok v⟩ []
      [ctxParam, ⟨"a".toList, ParamKind.positionalOrKeyword,
        some (PyVal.str ("d".toList)), 1⟩]
      = .ok ([PyVal.str ("d".toList)], []) :=
  ⟨(c7_missing_argument_vs_default ⟨fun _ v => .ok v⟩ ("a".toList) 1).1,
    (c7_missing_argument_vs_default ⟨fun _ v => .ok v⟩ ("a".toList) 1).2
      ("d".toList) (PyVal.str ("d".toList)) rfl⟩

/-- C10: when an ordinary positional parameter's declared default is
substituted because the token stream is exhausted, the default is not used
verbatim: a string default takes exactly the path a consumed token would
(quote-stripping, then the declared converter), and a non-string default
makes the quote-stripping step fail, so the conversion errors rather than
succeeding with the raw default. -/
theorem c10_default_runs_through_converter (ctx : Ctx) (nm : Str) (t : Nat) :
    (∀ s : Str,
      _convert ctx []
        [ctxParam, ⟨nm, ParamKind.positionalOrKeyword,
          some (PyVal.str s), t⟩]
      = _convert ctx [s]
          [ctxParam, ⟨nm, ParamKind.positionalOrKeyword, none, t⟩])
    ∧ ∀ ty : Str,
        _convert ctx []
          [ctxParam, ⟨nm, ParamKind.positionalOrKeyword,
            some (PyVal.nonStr ty), t⟩]
        = .error PyErr.attributeError :=
  ⟨fun _ => rfl, fun _ => rfl⟩

/-- A concrete plugin class used as test fixture. -/
def pluginK : PluginClass := ⟨1, "MyPlugin".toList, none⟩

/-- A concrete command descriptor with one alias. -/
def greetCmd : Cmd := Cmd.mk ("greet".toList) ["hi".toList] []

/-- A concrete instance of `pluginK` exposing `greetCmd`. -/
def instP : PluginInst := ⟨1, pluginK, [greetCmd]⟩

/-- A manager with no plugins and no standalone commands. -/
def st0 : ManagerState := ⟨[], [], []⟩

/-- The manager after loading `instP` with cancel scope 7. -/
def stLoaded : ManagerState := load_plugin st0 instP 7

/-- The outcome of unloading `instP` by its registered name. -/
def afterUnload : UnloadResult :=
  unload_plugin stLoaded (UnloadArg.byName ("MyPlugin".toList))

/-- C1: loading a plugin and unloading it by its registered name does NOT
behave as claimed. The cancel scope is cancelled and the unload hook runs,
and the standalone command table is unchanged, but
`self._plugin_command_cache.pop(...)` is keyed by the plugin *name* while the
cache was populated with the *instance* as key, so the call raises `KeyError`,
the cache entry for the plugin survives, and both the primary name and the
alias of its command still resolve via `lookup_command`. -/
theorem c1_unload_leaves_stale_cache :
    afterUnload.ret = .error .keyError
    ∧ afterUnload.effects = [Effect.cancelScope 7, Effect.unloadHook 1]
    ∧ afterUnload.state.commands = stLoaded.commands
    ∧ dget afterUnload.state.plugins ("MyPlugin".toList) = none
    ∧ (dget afterUnload.state.cache (CacheKey.inst 1)).isSome = true
    ∧ lookup_command afterUnload.state ("greet".toList) = some greetCmd
    ∧ lookup_command afterUnload.state ("hi".toList) = some greetCmd :=
  ⟨rfl, rfl, rfl, rfl, rfl, rfl, rfl⟩

/-- C2: unloading by a name that is not a key of the plugin registry is NOT a
no-op returning no plugin: `self.plugins.pop(klass)` is called without a
default and raises `KeyError` (the state is left unchanged and no effect is
performed, but the call errors instead of returning `None`). -/
theorem c2_unload_unknown_name_raises (st : ManagerState) (s : Str)
    (h : dget st.plugins s = none) :
    unload_plugin st (UnloadArg.byName s) = ⟨st, .error .keyError, []⟩ := by
  have hf : st.plugins.find? (fun kv => kv.1 == s) = none :=
    Option.map_eq_none'.mp h
  unfold unload_plugin dpop
  simp only [hf, Option.map_none']

/-- C2 witness: unloading the unregistered name `"ghost"` from the empty
manager raises `KeyError`. -/
theorem c2_unload_unknown_name_raises_witness :
    unload_plugin st0 (UnloadArg.byName ("ghost".toList))
      = ⟨st0, .error .keyError, []⟩ :=
  c2_unload_unknown_name_raises st0 ("ghost".toList) rfl

/-- C3: unloading by class never finds any instance: the registration pairs
are stored as `(instance, scope)` but the loop `for k, (s, p) in ...` binds
`p` to the cancel scope, so `type(p) == klass` compares the scope's type with
the plugin class and is always false. For every state — including states with
loaded instances of the class — the call cancels nothing, runs no unload
hook, changes nothing, and returns no plugin. -/
theorem c3_unload_by_class_never_matches (st : ManagerState)
    (k : PluginClass) :
    unload_plugin st (UnloadArg.byClass k) = ⟨st, .ok none, []⟩ := by
  have hf : st.plugins.find?
      (fun kv => scopeType kv.2.2 == PyType.plugin k.cid) = none := by
    apply List.find?_eq_none.mpr
    intro x hx
    simp [scopeType, BEq.beq]
  unfold unload_plugin
  simp only [hf]

/-- A blank function object. -/
def emptyFunc : FuncObj := ⟨[], none, false, [], none, [], false, []⟩

/-- A heap of blank function objects; ids 0 and 1 will play the two parents
`A` and `B`, id 2 the shared handler `f`. -/
def store0 : Store := fun _ => emptyFunc

/-- The heap after `A = command(name="a")(f0)`, `B = command(name="b")(f1)`,
then `A.subcommand(name="s1")(f2)` and `B.subcommand(name="s2")(f2)` — the
same function object 2 decorated as a subcommand of both parents. -/
def storeTwice : Store :=
  subcommand_apply 1 (some ("s2".toList)) none none 2
    (subcommand_apply 0 (some ("s1".toList)) none none 2
      (command_dec (some ("b".toList)) none none 1
        (command_dec (some ("a".toList)) none none 0 store0)))

/-- The heap after mutating the name of the descriptor reached through `A`'s
subcommand list. -/
def storeMut : Store :=
  setName storeTwice ((storeTwice 0).cmd_subcommands.headI) ("x".toList)

/-- C5 counterexample: decorating the same handler as a subcommand of two
parents does NOT create two independent descriptor objects. Both parents'
subcommand lists hold a reference to the same function object (id 2), the
second decoration overwrote its name, and renaming the descriptor reached
through `A` changes the descriptor reached through `B`. -/
theorem c5_counterexample :
    (storeTwice 0).cmd_subcommands = [2]
    ∧ (storeTwice 1).cmd_subcommands = [2]
    ∧ (storeTwice 2).cmd_name = "s2".toList
    ∧ (storeMut ((storeTwice 1).cmd_subcommands.headI)).cmd_name
        = "x".toList :=
  ⟨rfl, rfl, rfl, rfl⟩

/-- C5 amended: for any heap and distinct object ids, decorating the same
handler `f` as a subcommand of parents `a` and then `b` appends a reference
to the *same* object `f` to both parents' lists, and a name mutation applied
to the descriptor reached through `a`'s list is observed through `b`'s
list. -/
theorem c5_shared_descriptor (st : Store) (a b f : Nat)
    (n1 d1 : Option Str) (al1 : Option (List Str))
    (n2 d2 : Option Str) (al2 : Option (List Str))
    (haf : a ≠ f) (hbf : b ≠ f) (hab : a ≠ b) :
    ((subcommand_apply b n2 d2 al2 f
        (subcommand_apply a n1 d1 al1 f st)) a).cmd_subcommands.getLast?
      = some f
    ∧ ((subcommand_apply b n2 d2 al2 f
        (subcommand_apply a n1 d1 al1 f st)) b).cmd_subcommands.getLast?
      = some f
    ∧ ∀ nm : Str,
        ∀ ia ∈ ((subcommand_apply b n2 d2 al2 f
          (subcommand_apply a n1 d1 al1 f st)) a).cmd_subcommands.getLast?,
        ∀ ib ∈ ((subcommand_apply b n2 d2 al2 f
          (subcommand_apply a n1 d1 al1 f st)) b).cmd_subcommands.getLast?,
        ((setName (subcommand_apply b n2 d2 al2 f
          (subcommand_apply a n1 d1 al1 f st)) ia nm) ib).cmd_name = nm := by
  have ha : ((subcommand_apply b n2 d2 al2 f
      (subcommand_apply a n1 d1 al1 f st)) a).cmd_subcommands.getLast?
      = some f := by
    simp [subcommand_apply, command_dec, haf, hbf, hab, Ne.symm hab,
      Ne.symm haf, Ne.symm hbf]
  have hb : ((subcommand_apply b n2 d2 al2 f
      (subcommand_apply a n1 d1 al1 f st)) b).cmd_subcommands.getLast?
      = some f := by
    simp [subcommand_apply, command_dec, haf, hbf, hab, Ne.symm hab,
      Ne.symm haf, Ne.symm hbf]
  refine ⟨ha, hb, ?_⟩
  intro nm ia hia ib hib
  rw [Option.mem_def, ha] at hia
  rw [Option.mem_def, hb] at hib
  cases hia
  cases hib
  simp [setName]

/-- C5 amended witness: the shared-reference fact at the concrete heap. -/
theorem c5_shared_descriptor_witness :
    ((subcommand_apply 1 (some ("s2".toList)) none none 2
        (subcommand_apply 0 (some ("s1".toList)) none none 2
          store0)) 0).cmd_subcommands.getLast? = some 2 :=
  (c5_shared_descriptor store0 0 1 2 (some ("s1".toList)) none none
    (some ("s2".toList)) none none (by decide) (by decide) (by decide)).1

theorem splitOnSpace_no_space (l : Str) (h : ' ' ∉ l) :
    splitOnSpace l = [l] := by
  induction l with
  | nil => rfl
  | cons c rest ih =>
      have hc : c ≠ ' ' := fun he => h (he ▸ List.mem_cons_self c rest)
      have hr : ' ' ∉ rest := fun hm => h (List.mem_cons_of_mem c hm)
      simp [splitOnSpace, hc, ih hr]

theorem splitOnSpace_append (p c : Str) (hp : ' ' ∉ p) :
    splitOnSpace (p ++ ' ' :: c) = p :: splitOnSpace c := by
  induction p with
  | nil => simp [splitOnSpace]
  | cons d rest ih =>
      have hd : d ≠ ' ' := fun he => hp (he ▸ List.mem_cons_self d rest)
      have hr : ' ' ∉ rest := fun hm => hp (List.mem_cons_of_mem d hm)
      simp [splitOnSpace, hd, ih hr]

/-- C8: for every manager state, resolving the dotted name `parent child` via
`get_command` returns a descriptor exactly when `parent` resolves through the
two-tier `lookup_command` and `child` equals the primary name of, or occurs
in the alias list of, some entry of the resolved parent's subcommand list. -/
theorem c8_dotted_resolution (st : ManagerState) (p c : Str)
    (hp : ' ' ∉ p) (hc : ' ' ∉ c) :
    (get_command st (p ++ ' ' :: c)).isSome = true
    ↔ ∃ cmd, lookup_command st p = some cmd
        ∧ ∃ sub ∈ Cmd.cmd_subcommands cmd,
            Cmd.cmd_name sub = c ∨ c ∈ Cmd.cmd_aliases sub := by
  unfold get_command
  rw [splitOnSpace_append p c hp, splitOnSpace_no_space c hc]
  cases hlk : lookup_command st p with
  | none => simp [hlk]
  | some cmd =>
      simp only [hlk, Option.some.injEq]
      unfold walkSubcommands
      cases hf : (Cmd.cmd_subcommands cmd).find?
          (fun s => Cmd.cmd_name s == c
            || (Cmd.cmd_aliases s).contains c) with
      | none =>
          simp only [hf, Option.isSome_none]
          rw [List.find?_eq_none] at hf
          constructor
          · intro hfalse; cases hfalse
          · rintro ⟨cmd2, hcmd2, sub, hsub, hmatch⟩
            cases hcmd2
            have := hf sub hsub
            simp only [Bool.or_eq_true, beq_iff_eq, List.contains,
              List.elem_eq_mem, decide_eq_true_eq, not_or] at this
            exact absurd hmatch (by tauto)
      | some nxt =>
          simp only [hf]
          constructor
          · intro _
            refine ⟨cmd, rfl, nxt, List.mem_of_find?_eq_some hf, ?_⟩
            have := List.find?_some hf
            simpa only [Bool.or_eq_true, beq_iff_eq, List.contains,
              List.elem_eq_mem, decide_eq_true_eq] using this
          · intro _
            unfold walkSubcommands
            rfl

/-- A standalone parent command with one subcommand, and the manager that
holds it, for the C8 witness. -/
def childCmd : Cmd := Cmd.mk ("child".toList) ["c".toList] []

/-- The parent command of `childCmd`. -/
def parentCmd : Cmd := Cmd.mk ("parent".toList) [] [childCmd]

/-- A manager whose standalone table holds `parentCmd`. -/
def stParent : ManagerState := ⟨[], [], [("parent".toList, parentCmd)]⟩

/-- C8 witness: `parent child` resolves in the concrete manager. -/
theorem c8_dotted_resolution_witness :
    (get_command stParent ("parent".toList ++ ' ' :: "child".toList)).isSome
      = true :=
  (c8_dotted_resolution stParent ("parent".toList) ("child".toList)
    (by decide) (by decide)).mpr
    ⟨parentCmd, rfl, childCmd, List.mem_singleton.mpr rfl, Or.inl rfl⟩

theorem subQuoted_nil : subQuoted [] = [] := by
  rw [subQuoted]

theorem subQuoted_cons_ne (c : Char) (rest : List Char) (h : c ≠ '"') :
    subQuoted (c :: rest) = c :: subQuoted rest := by
  rw [subQuoted]
  simp [h]

theorem wsplit_nil : wsplit [] = [] := by
  rw [wsplit]

theorem wsplit_cons_white (c : Char) (rest : List Char)
    (h : isWhite c = true) : wsplit (c :: rest) = wsplit rest := by
  rw [wsplit]
  simp [h]

theorem wsplit_cons_word (c : Char) (rest : List Char)
    (h : isWhite c = false) :
    wsplit (c :: rest)
      = (c :: (takeWord rest).1) :: wsplit (takeWord rest).2 := by
  rw [wsplit]
  simp [h]

theorem subQuoted_replicate_space (k : Nat) :
    subQuoted (List.replicate k ' ') = List.replicate k ' ' := by
  induction k with
  | zero => exact subQuoted_nil
  | succ n ih =>
      rw [List.replicate_succ, subQuoted_cons_ne ' ' _ (by decide), ih]

theorem wsplit_replicate_space (k : Nat) :
    wsplit (List.replicate k ' ') = [] := by
  induction k with
  | zero => exact wsplit_nil
  | succ n ih =>
      rw [List.replicate_succ, wsplit_cons_white ' ' _ (by decide), ih]

theorem prefix_check_pad_spaces (pfx : Str) (k : Nat) (h : pfx ≠ []) :
    prefix_check pfx (pfx ++ List.replicate k ' ')
      = .error .indexError := by
  unfold prefix_check
  have h1 : List.isPrefixOf pfx (pfx ++ List.replicate k ' ') = true := by
    simp [List.isPrefixOf_iff_prefix]
  have h2 : (pfx ++ List.replicate k ' ').drop pfx.length
      = List.replicate k ' ' := List.drop_left pfx _
  simp only [h1, if_true, h, if_false, h2]
  unfold split_message_content
  rw [subQuoted_replicate_space, wsplit_replicate_space]
  simp [h]

/-- C4 counterexample: a message whose content equals the configured prefix
`"!"` exactly does not produce a match with an empty command word — the
matcher raises `IndexError` at `tokens[0]`. -/
theorem c4_counterexample :
    prefix_check ("!".toList) ("!".toList) = .error .indexError
    ∧ prefix_check ("!".toList) ("!".toList)
        ≠ .ok (some (([] : Str), ([] : List Str))) := by
  have he : prefix_check ("!".toList) ("!".toList) = .error .indexError := by
    have h0 := prefix_check_pad_spaces ("!".toList) 0 (by decide)
    simpa using h0
  refine ⟨he, ?_⟩
  intro h
  rw [he] at h
  exact Except.noConfusion h

/-- C4 amended: for every non-empty prefix, a message consisting of the
prefix followed only by delimiter characters (including none) makes the
remainder tokenize to an empty sequence, and the matcher then raises
`IndexError` (`tokens[0]` on an empty list) instead of reporting a match with
an empty command word. -/
theorem c4_empty_remainder_raises (pfx : Str) (k : Nat) (h : pfx ≠ []) :
    prefix_check pfx (pfx ++ List.replicate k ' ')
      = .error .indexError :=
  prefix_check_pad_spaces pfx k h

/-- C4 amended witness: the concrete prefix `"!"` with one trailing space. -/
theorem c4_empty_remainder_raises_witness :
    prefix_check ("!".toList) ("!".toList ++ List.replicate 1 ' ')
      = .error .indexError :=
  c4_empty_remainder_raises ("!".toList) 1 (by decide)

theorem scanClose_spec (w rest : List Char)
    (h : ∀ c ∈ w, c ≠ '"' ∧ c ≠ '\n') :
    scanClose (w ++ '"' :: rest) = some (w, rest) := by
  induction w with
  | nil => simp [scanClose]
  | cons a w ih =>
      have ha := h a (List.mem_cons_self a w)
      have hw : ∀ c ∈ w, c ≠ '"' ∧ c ≠ '\n' :=
        fun c hc => h c (List.mem_cons_of_mem a hc)
      simp [scanClose, ha.1, ha.2, ih hw]

theorem matchAt_spec (a : Char) (w rest : List Char) (ha : a ≠ '\n')
    (h : ∀ c ∈ w, c ≠ '"' ∧ c ≠ '\n') :
    matchAt ((a :: w) ++ '"' :: rest) = some (a :: w, rest) := by
  simp [matchAt, ha, scanClose_spec w rest h]

theorem subQuoted_cons_quote (rest content rest2 : List Char)
    (h : matchAt rest = some (content, rest2)) :
    subQuoted ('"' :: rest)
      = '"' :: (content.map fun d => if d = ' ' then '\x00' else d)
        ++ '"' :: subQuoted rest2 := by
  rw [subQuoted]
  rw [if_pos rfl]
  split
  · next content2 rest3 heq =>
      rw [h] at heq
      cases heq
      simp
  · next heq =>
      rw [h] at heq
      cases heq

theorem subQuoted_append_word (w t : List Char)
    (h : ∀ c ∈ w, c ≠ '"') :
    subQuoted (w ++ t) = w ++ subQuoted t := by
  induction w with
  | nil => simp
  | cons a w ih =>
      have ha := h a (List.mem_cons_self a w)
      have hw : ∀ c ∈ w, c ≠ '"' :=
        fun c hc => h c (List.mem_cons_of_mem a hc)
      simp only [List.cons_append]
      rw [subQuoted_cons_ne a _ ha, ih hw]

theorem subQuoted_append_quoted (w t : List Char) (hne : w ≠ [])
    (h : ∀ c ∈ w, c ≠ '"' ∧ c ≠ '\n') :
    subQuoted (('"' :: w ++ ['"']) ++ t)
      = ('"' :: (w.map fun d => if d = ' ' then '\x00' else d) ++ ['"'])
        ++ subQuoted t := by
  match w with
  | [] => exact absurd rfl hne
  | a :: w2 =>
      have ha := h a (List.mem_cons_self a w2)
      have hw : ∀ c ∈ w2, c ≠ '"' ∧ c ≠ '\n' :=
        fun c hc => h c (List.mem_cons_of_mem a hc)
      have hm : matchAt ((a :: w2) ++ '"' :: t) = some (a :: w2, t) :=
        matchAt_spec a w2 t ha.2 hw
      have : ('"' :: (a :: w2) ++ ['"']) ++ t = '"' :: ((a :: w2) ++ '"' :: t) := by
        simp
      rw [this, subQuoted_cons_quote _ _ _ hm]
      simp

theorem takeWord_append (w r : List Char) (h : ∀ c ∈ w, isWhite c = false) :
    takeWord (w ++ r) = (w ++ (takeWord r).1, (takeWord r).2) := by
  induction w with
  | nil => simp [takeWord]
  | cons a w ih =>
      have ha := h a (List.mem_cons_self a w)
      have hw : ∀ c ∈ w, isWhite c = false :=
        fun c hc => h c (List.mem_cons_of_mem a hc)
      simp [takeWord, ha, ih hw]

theorem takeWord_white (c : Char) (rest : List Char) (h : isWhite c = true) :
    takeWord (c :: rest) = ([], c :: rest) := by
  simp [takeWord, h]

theorem wsplit_word_sep (w rest : List Char) (hne : w ≠ [])
    (h : ∀ c ∈ w, isWhite c = false) :
    wsplit (w ++ ' ' :: rest) = w :: wsplit rest := by
  match w with
  | [] => exact absurd rfl hne
  | a :: w2 =>
      have ha := h a (List.mem_cons_self a w2)
      have hw : ∀ c ∈ w2, isWhite c = false :=
        fun c hc => h c (List.mem_cons_of_mem a hc)
      rw [List.cons_append, wsplit_cons_word a _ ha,
        takeWord_append w2 (' ' :: rest) hw,
        takeWord_white ' ' rest (by decide)]
      simp [wsplit_cons_white ' ' rest (by decide)]

theorem wsplit_word_only (w : List Char) (hne : w ≠ [])
    (h : ∀ c ∈ w, isWhite c = false) :
    wsplit w = [w] := by
  match w with
  | [] => exact absurd rfl hne
  | a :: w2 =>
      have ha := h a (List.mem_cons_self a w2)
      have hw : ∀ c ∈ w2, isWhite c = false :=
        fun c hc => h c (List.mem_cons_of_mem a hc)
      rw [wsplit_cons_word a _ ha,
        show w2 = w2 ++ [] from (List.append_nil w2).symm,
        takeWord_append w2 [] hw]
      simp [takeWord, wsplit_nil]

/-- A building block of a well-formed message: a plain word or a quoted
span. -/
inductive Piece where
  | word (w : Str)
  | quoted (w : Str)

/-- The concrete text of a piece: a word is itself, a quoted span carries its
surrounding double quotes. -/
def Piece.render : Piece → Str
  | .word w => w
  | .quoted w => '"' :: w ++ ['"']

/-- Well-formedness: a word is nonempty with no whitespace, no quote and no
sentinel byte; a quoted span is nonempty with no quote, no sentinel byte, no
newline, and no whitespace other than plain spaces. -/
def Piece.wf : Piece → Bool
  | .word w => !w.isEmpty && w.all (fun c => !isWhite c && c ≠ '"' && c ≠ '\x00')
  | .quoted w => !w.isEmpty &&
      w.all (fun c => c ≠ '"' && c ≠ '\x00' && c ≠ '\n' && (!isWhite c || c = ' '))

/-- A message assembled from pieces separated by single spaces. -/
def joinPieces : List Piece → Str
  | [] => []
  | [p] => Piece.render p
  | p :: q :: ps => Piece.render p ++ ' ' :: joinPieces (q :: ps)

/-- The text of a piece after the quoted-span substitution pass: spaces
inside a quoted span have become sentinel bytes. -/
def Piece.sentRender : Piece → Str
  | .word w => w
  | .quoted w => '"' :: (w.map fun d => if d = ' ' then '\x00' else d) ++ ['"']

/-- The substituted message: `joinPieces` with substituted pieces. -/
def joinSent : List Piece → Str
  | [] => []
  | [p] => Piece.sentRender p
  | p :: q :: ps => Piece.sentRender p ++ ' ' :: joinSent (q :: ps)

theorem wf_word_facts (w : Str) (h : Piece.wf (Piece.word w) = true) :
    w ≠ [] ∧ ∀ c ∈ w, isWhite c = false ∧ c ≠ '"' ∧ c ≠ '\x00' := by
  simp only [Piece.wf, Bool.and_eq_true, List.all_eq_true, Bool.not_eq_true',
    List.isEmpty_eq_false, decide_eq_true_eq] at h
  obtain ⟨h1, h2⟩ := h
  refine ⟨h1, fun c hc => ?_⟩
  have h3 := h2 c hc
  tauto

theorem wf_quoted_facts (w : Str) (h : Piece.wf (Piece.quoted w) = true) :
    w ≠ [] ∧ ∀ c ∈ w,
      c ≠ '"' ∧ c ≠ '\x00' ∧ c ≠ '\n' ∧ (isWhite c = false ∨ c = ' ') := by
  simp only [Piece.wf, Bool.and_eq_true, List.all_eq_true, Bool.not_eq_true',
    List.isEmpty_eq_false, decide_eq_true_eq, Bool.or_eq_true] at h
  obtain ⟨h1, h2⟩ := h
  refine ⟨h1, fun c hc => ?_⟩
  have h3 := h2 c hc
  tauto

theorem subQuoted_joinPieces (ps : List Piece)
    (h : ∀ p ∈ ps, Piece.wf p = true) :
    subQuoted (joinPieces ps) = joinSent ps := by
  induction ps with
  | nil => simp [joinPieces, joinSent, subQuoted_nil]
  | cons p ps ih =>
      have hp := h p (List.mem_cons_self p ps)
      have hrest : ∀ q ∈ ps, Piece.wf q = true :=
        fun q hq => h q (List.mem_cons_of_mem p hq)
      cases ps with
      | nil =>
          cases p with
          | word w =>
              obtain ⟨hne, hw⟩ := wf_word_facts w hp
              show subQuoted w = Piece.sentRender (Piece.word w)
              have := subQuoted_append_word w []
                (fun c hc => (hw c hc).2.1)
              simpa [subQuoted_nil, Piece.sentRender] using this
          | quoted w =>
              obtain ⟨hne, hw⟩ := wf_quoted_facts w hp
              show subQuoted ('"' :: w ++ ['"'])
                = Piece.sentRender (Piece.quoted w)
              have := subQuoted_append_quoted w [] hne
                (fun c hc => ⟨(hw c hc).1, (hw c hc).2.2.1⟩)
              simpa [subQuoted_nil, Piece.sentRender] using this
      | cons q ps2 =>
          cases p with
          | word w =>
              obtain ⟨hne, hw⟩ := wf_word_facts w hp
              show subQuoted (w ++ ' ' :: joinPieces (q :: ps2))
                = Piece.sentRender (Piece.word w) ++ ' ' :: joinSent (q :: ps2)
              rw [subQuoted_append_word w _ (fun c hc => (hw c hc).2.1),
                subQuoted_cons_ne ' ' _ (by decide), ih hrest]
              rfl
          | quoted w =>
              obtain ⟨hne, hw⟩ := wf_quoted_facts w hp
              show subQuoted (('"' :: w ++ ['"']) ++ ' ' :: joinPieces (q :: ps2))
                = Piece.sentRender (Piece.quoted w)
                  ++ ' ' :: joinSent (q :: ps2)
              rw [subQuoted_append_quoted w _ hne
                  (fun c hc => ⟨(hw c hc).1, (hw c hc).2.2.1⟩),
                subQuoted_cons_ne ' ' _ (by decide), ih hrest]
              rfl

theorem sentRender_facts (p : Piece) (h : Piece.wf p = true) :
    Piece.sentRender p ≠ []
    ∧ ∀ c ∈ Piece.sentRender p, isWhite c = false := by
  cases p with
  | word w =>
      obtain ⟨hne, hw⟩ := wf_word_facts w h
      exact ⟨hne, fun c hc => (hw c hc).1⟩
  | quoted w =>
      obtain ⟨hne, hw⟩ := wf_quoted_facts w h
      refine ⟨by simp [Piece.sentRender], fun c hc => ?_⟩
      simp only [Piece.sentRender, List.mem_cons, List.mem_append,
        List.mem_map, List.mem_singleton] at hc
      have hcase : c = '"' ∨ ∃ d ∈ w, (if d = ' ' then '\x00' else d) = c := by
        tauto
      rcases hcase with hq | ⟨d, hd, hdc⟩
      · rw [hq]; decide
      · rw [← hdc]
        by_cases hsp : d = ' '
        · rw [if_pos hsp]; decide
        · rw [if_neg hsp]
          rcases (hw d hd).2.2.2 with hok | hcontra
          · exact hok
          · exact absurd hcontra hsp

theorem wsplit_joinSent (ps : List Piece)
    (h : ∀ p ∈ ps, Piece.wf p = true) :
    wsplit (joinSent ps) = ps.map Piece.sentRender := by
  induction ps with
  | nil => simp [joinSent, wsplit_nil]
  | cons p ps ih =>
      have hp := h p (List.mem_cons_self p ps)
      have hrest : ∀ q ∈ ps, Piece.wf q = true :=
        fun q hq => h q (List.mem_cons_of_mem p hq)
      obtain ⟨hne, hnw⟩ := sentRender_facts p hp
      cases ps with
      | nil =>
          show wsplit (Piece.sentRender p) = [Piece.sentRender p]
          exact wsplit_word_only _ hne hnw
      | cons q ps2 =>
          show wsplit (Piece.sentRender p ++ ' ' :: joinSent (q :: ps2))
            = Piece.sentRender p :: (q :: ps2).map Piece.sentRender
          rw [wsplit_word_sep _ _ hne hnw, ih hrest]

theorem restoreTok_no_sentinel (w : Str) (h : ∀ c ∈ w, c ≠ '\x00') :
    restoreTok w = w := by
  unfold restoreTok
  induction w with
  | nil => rfl
  | cons a w ih =>
      have ha := h a (List.mem_cons_self a w)
      have hw : ∀ c ∈ w, c ≠ '\x00' :=
        fun c hc => h c (List.mem_cons_of_mem a hc)
      simp [ha, ih hw]

theorem restore_sent_id (w : Str) (h : ∀ c ∈ w, c ≠ '\x00') :
    List.map ((fun c => if c = '\x00' then ' ' else c)
      ∘ fun d => if d = ' ' then '\x00' else d) w = w := by
  induction w with
  | nil => rfl
  | cons a w2 ih =>
      have ha := h a (List.mem_cons_self a w2)
      have hw2 : ∀ c ∈ w2, c ≠ '\x00' :=
        fun c hc => h c (List.mem_cons_of_mem a hc)
      by_cases hsp : a = ' '
      · simp [Function.comp, hsp, ih hw2]
      · simp [Function.comp, hsp, ha, ih hw2]

theorem restoreTok_sentRender (p : Piece) (h : Piece.wf p = true) :
    restoreTok (Piece.sentRender p) = Piece.render p := by
  cases p with
  | word w =>
      obtain ⟨hne, hw⟩ := wf_word_facts w h
      exact restoreTok_no_sentinel w (fun c hc => (hw c hc).2.2)
  | quoted w =>
      obtain ⟨hne, hw⟩ := wf_quoted_facts w h
      show restoreTok ('"' :: (w.map fun d => if d = ' ' then '\x00' else d)
          ++ ['"']) = '"' :: w ++ ['"']
      unfold restoreTok
      simp only [List.map_cons, List.map_append, List.map_map,
        List.map_cons, List.map_nil]
      have h1 : (if ('"' : Char) = '\x00' then ' ' else '"') = '"' := by decide
      rw [h1, restore_sent_id w (fun c hc => (hw c hc).2.1)]

theorem wsplit_mem_ne_nil (n : Nat) :
    ∀ l : List Char, l.length ≤ n → ∀ u ∈ wsplit l, u ≠ [] := by
  induction n with
  | zero =>
      intro l hl u hu
      have hnil : l = [] := List.length_eq_zero.mp (Nat.le_zero.mp hl)
      subst hnil
      rw [wsplit_nil] at hu
      exact absurd hu (List.not_mem_nil u)
  | succ n ih =>
      intro l hl u hu
      match l with
      | [] =>
          rw [wsplit_nil] at hu
          exact absurd hu (List.not_mem_nil u)
      | c :: rest =>
          cases hc : isWhite c with
          | true =>
              rw [wsplit_cons_white c rest hc] at hu
              exact ih rest (by simp at hl; omega) u hu
          | false =>
              rw [wsplit_cons_word c rest hc] at hu
              rcases List.mem_cons.mp hu with rfl | hu2
              · simp
              · have hlen := takeWord_length rest
                exact ih (takeWord rest).2 (by simp at hl; omega) u hu2

/-- C9: with the default single-space delimiter, a message built of plain
words and properly double-quoted spans tokenizes to exactly those pieces —
each quoted run is one token, its internal spaces and its surrounding quote
characters preserved, while each unquoted word is its own token; the empty
message yields no tokens; and no input ever produces an empty token. -/
theorem c9_tokenize_quoted_runs :
    (∀ ps : List Piece, (∀ p ∈ ps, Piece.wf p = true) →
        split_message_content (joinPieces ps) = ps.map Piece.render)
    ∧ split_message_content [] = []
    ∧ ∀ s : Str, ∀ t ∈ split_message_content s, t ≠ [] := by
  refine ⟨fun ps h => ?_, ?_, fun s t ht => ?_⟩
  · unfold split_message_content
    rw [subQuoted_joinPieces ps h, wsplit_joinSent ps h, List.map_map]
    exact List.map_congr_left (fun p hp => restoreTok_sentRender p (h p hp))
  · unfold split_message_content
    rw [subQuoted_nil, wsplit_nil]
    rfl
  · unfold split_message_content at ht
    obtain ⟨u, hu, hut⟩ := List.mem_map.mp ht
    intro hnil
    have hune := wsplit_mem_ne_nil (subQuoted s).length (subQuoted s)
      le_rfl u hu
    rw [← hut] at hnil
    exact hune (List.map_eq_nil_iff.mp hnil)

/-- C9 witness: the concrete message `send "Fuyukai desu" ok` tokenizes to
three tokens, the quoted span staying one token with its quotes and inner
space. -/
theorem c9_tokenize_quoted_runs_witness :
    split_message_content
      (joinPieces [Piece.word ("send".toList),
        Piece.quoted ("Fuyukai desu".toList), Piece.word ("ok".toList)])
      = [Piece.word ("send".toList), Piece.quoted ("Fuyukai desu".toList),
          Piece.word ("ok".toList)].map Piece.render :=
  c9_tokenize_quoted_runs.1 _ (by decide)
